import Mathlib

/-!
Verification of the hyeong-rs interpreter core against its design document.

The Rust sources are shallowly embedded:
* `src/rational.rs` — `HyeongRational`, its arithmetic, comparisons and the
  `Display` rendering;
* `src/stack.rs` — the stack family (`HyeongReadStack`, `HyeongWriteStack`,
  plain `Vec` stacks) and `StackManager` with its six mutators and the
  heart-tree evaluator;
* `src/parser.rs` — the syllable scanner, token classification and the
  heart-tree construction performed by `Iterator::next`;
* `src/processor.rs` — the processor loop, label memo table, `last_jump`
  slot, `run` and the destructor flush.

Machine integers (`usize`/`isize`) are modelled as `Nat`/`Int`; the exact
rational type is `ℚ`; byte streams are modelled as the sequence of values a
read yields resp. the sequence of rendered writes, together with a flush
counter and a fixed flush outcome for the write streams.  A Rust `panic!`
(or `unwrap` of `None`) is modelled by an `Option` result being `none`.
-/

namespace Hyeong

/-- `HyeongRational` (src/rational.rs): an exact rational number or the
poison value `NaN`. -/
inductive HyeongRational where
  | Rational (r : ℚ)
  | NaN
deriving DecidableEq

/-- `HyeongRational::is_nan`. -/
def HyeongRational.is_nan : HyeongRational → Bool
  | .NaN => true
  | .Rational _ => false

/-- `HyeongRational::from_u32` (same constructor pattern as the
`from_u64`/`from_i64` family in src/rational.rs). -/
def HyeongRational.from_u32 (n : Nat) : HyeongRational := .Rational (n : ℚ)

/-- `HyeongRational::from_usize`. -/
def HyeongRational.from_usize (n : Nat) : HyeongRational := .Rational (n : ℚ)

/-- `impl Add for HyeongRational`: poison propagates, otherwise exact
rational addition. -/
def HyeongRational.add : HyeongRational → HyeongRational → HyeongRational
  | .NaN, _ => .NaN
  | _, .NaN => .NaN
  | .Rational a, .Rational b => .Rational (a + b)

/-- `impl Mul for HyeongRational`. -/
def HyeongRational.mul : HyeongRational → HyeongRational → HyeongRational
  | .NaN, _ => .NaN
  | _, .NaN => .NaN
  | .Rational a, .Rational b => .Rational (a * b)

/-- `impl Neg for HyeongRational`. -/
def HyeongRational.neg : HyeongRational → HyeongRational
  | .NaN => .NaN
  | .Rational a => .Rational (-a)

/-- `HyeongRational::recip`: poison for `NaN` and for an exact zero,
otherwise the rational reciprocal. -/
def HyeongRational.recip : HyeongRational → HyeongRational
  | .NaN => .NaN
  | .Rational a => if a = 0 then .NaN else .Rational a⁻¹

/-- `impl PartialEq for HyeongRational`: `false` whenever either side is
`NaN`, otherwise rational equality. -/
def HyeongRational.heq : HyeongRational → HyeongRational → Bool
  | .NaN, _ => false
  | _, .NaN => false
  | .Rational a, .Rational b => decide (a = b)

/-- The strict `<` derived from `impl PartialOrd for HyeongRational`:
`partial_cmp` is `None` whenever either side is `NaN`, so `<` is `false`
there; otherwise rational order. -/
def HyeongRational.hlt : HyeongRational → HyeongRational → Bool
  | .NaN, _ => false
  | _, .NaN => false
  | .Rational a, .Rational b => decide (a < b)

/-- One rendered write, as produced by `impl Display for HyeongRational`
(src/rational.rs):
* `chr n` — the character whose Unicode scalar value is `n`;
* `dec n` — the decimal digits of `n` (used for a negative floor, with
  `n` the absolute value);
* `tooBig` — the literal fallback text `너무 커엇...`. -/
inductive RenderOut where
  | chr (scalar : Nat)
  | dec (n : Nat)
  | tooBig
deriving DecidableEq

/-- The `Display` body for the non-`NaN` case.  The source computes
`int = r.floor().to_integer()`; when `0 ≤ int < 0x110000` it runs
`int.to_u32().and_then(char::from_u32).unwrap()`: `char::from_u32` is
`None` exactly on the surrogate range `0xD800..=0xDFFF`, and the `unwrap`
of that `None` aborts, modelled by `none`. -/
def renderRat (q : ℚ) : Option RenderOut :=
  let int : ℤ := Rat.floor q
  if 0 ≤ int then
    if 0x110000 ≤ int then some .tooBig
    else if 0xD800 ≤ int ∧ int ≤ 0xDFFF then none
    else some (.chr int.toNat)
  else some (.dec (-int).toNat)

/-- `impl Display for HyeongRational`. -/
def render : HyeongRational → Option RenderOut
  | .Rational q => renderRat q
  | .NaN => some .tooBig

/-- C7 counterexample: the claim asserts that every non-negative floor
below `0x110000` is rendered as the corresponding character, but at the
surrogate scalar `0xD800 = 55296` the renderer has no character to
produce: `char::from_u32` yields `None` and the `unwrap` aborts. -/
theorem claim7_counterexample :
    render (HyeongRational.Rational 55296) = none ∧
    render (HyeongRational.Rational 55296) ≠ some (RenderOut.chr 55296) := by
  exact ⟨by decide, by decide⟩

/-- C7 amended: rendering a rational value computes the floor; a negative
floor renders the decimal digits of its absolute value; a floor at or above
`0x110000` renders the fallback text; a floor in the surrogate range
`0xD800..=0xDFFF` aborts (no character exists); every other non-negative
floor renders the character with that scalar value; poison renders the
fallback text. -/
theorem claim7_render (v : HyeongRational) :
    (v = .NaN → render v = some .tooBig) ∧
    ∀ q : ℚ, v = .Rational q →
      (Rat.floor q < 0 → render v = some (.dec (-(Rat.floor q)).toNat)) ∧
      ((0x110000 : ℤ) ≤ Rat.floor q → render v = some .tooBig) ∧
      (0 ≤ Rat.floor q → Rat.floor q < 0x110000 →
        ¬((0xD800 : ℤ) ≤ Rat.floor q ∧ Rat.floor q ≤ 0xDFFF) →
        render v = some (.chr (Rat.floor q).toNat)) ∧
      ((0xD800 : ℤ) ≤ Rat.floor q → Rat.floor q ≤ 0xDFFF → render v = none) := by
  refine ⟨fun h => by subst h; rfl, fun q hq => ?_⟩
  subst hq
  refine ⟨fun hneg => ?_, fun hbig => ?_, fun h0 hlt hns => ?_, fun hs1 hs2 => ?_⟩
  · simp only [render, renderRat]
    rw [if_neg (by omega)]
  · simp only [render, renderRat]
    rw [if_pos (by omega), if_pos hbig]
  · simp only [render, renderRat]
    rw [if_pos h0, if_neg (by omega), if_neg hns]
  · simp only [render, renderRat]
    rw [if_pos (by omega), if_neg (by omega), if_pos ⟨hs1, hs2⟩]

/-- C7 witness: the amended theorem evaluated at concrete values for each
branch: `-3/2` (floor `-2`, digits of `2`), `0x110000` (too big), `65`
(the character `A`), `0xD800` (abort), and poison. -/
theorem claim7_witness :
    render (HyeongRational.Rational (-2)) = some (.dec 2) ∧
    render (HyeongRational.Rational 1114112) = some .tooBig ∧
    render (HyeongRational.Rational 65) = some (.chr 65) ∧
    render (HyeongRational.Rational 55296) = none ∧
    render HyeongRational.NaN = some .tooBig := by
  refine ⟨?_, ?_, ?_, ?_, ?_⟩
  · have h := ((claim7_render (HyeongRational.Rational (-2))).2 (-2) rfl).1 (by decide)
    exact h.trans (by decide)
  · exact ((claim7_render (HyeongRational.Rational 1114112)).2 1114112 rfl).2.1 (by decide)
  · exact ((claim7_render (HyeongRational.Rational 65)).2 65 rfl).2.2.1 (by decide) (by decide)
      (by decide)
  · exact ((claim7_render (HyeongRational.Rational 55296)).2 55296 rfl).2.2.2 (by decide)
      (by decide)
  · exact (claim7_render HyeongRational.NaN).1 rfl

/-- C8: the poison laws of `HyeongRational` (src/rational.rs): `NaN` is
never equal to anything (itself included), never ordered against anything,
propagates through addition and multiplication from either side, through
negation and reciprocation, and the reciprocal of an exact zero is
poison. -/
theorem claim8_poison_laws (x : HyeongRational) :
    HyeongRational.heq x .NaN = false ∧
    HyeongRational.heq .NaN x = false ∧
    HyeongRational.heq .NaN .NaN = false ∧
    HyeongRational.hlt .NaN x = false ∧
    HyeongRational.hlt x .NaN = false ∧
    HyeongRational.add .NaN x = .NaN ∧
    HyeongRational.add x .NaN = .NaN ∧
    HyeongRational.mul .NaN x = .NaN ∧
    HyeongRational.mul x .NaN = .NaN ∧
    HyeongRational.neg .NaN = .NaN ∧
    HyeongRational.recip .NaN = .NaN ∧
    HyeongRational.recip (.Rational 0) = .NaN := by
  cases x <;> exact ⟨rfl, rfl, rfl, rfl, rfl, rfl, rfl, rfl, rfl, rfl, rfl, by simp [HyeongRational.recip]⟩

/-! ## Stacks (src/stack.rs)

A LIFO `Vec<HyeongRational>` is represented by a list whose head is the top
of the stack.  The three stack flavours are the variants of `HStack`:

* `read` — `HyeongReadStack`: a buffer stack plus the sequence of values
  that successive `read_codepoint` calls on its byte source would yield
  (a decode error or exhaustion yields `NaN`, so the stream is pre-mapped
  to `HyeongRational` values; after the list is exhausted every further
  read fails, i.e. yields `NaN`);
* `write` — `HyeongWriteStack`: the sequence of rendered writes so far, a
  count of `flush` calls received by the backing stream, and the fixed
  outcome the backing stream gives to `flush` (`true` = `Ok`);
* `plain` — a plain `Vec` stack. -/
inductive HStack where
  | read (input : List HyeongRational) (stack : List HyeongRational)
  | write (out : List (Option RenderOut)) (flushes : Nat) (flushOk : Bool)
  | plain (stack : List HyeongRational)
deriving DecidableEq

/-- `HyeongStack::push_one` for each flavour.  A write stack renders the
value (`write!(.., "{}", value).unwrap()`); a `none` entry records an
aborting write. -/
def HStack.push_one : HStack → HyeongRational → HStack
  | .read i s, v => .read i (v :: s)
  | .write o f k, v => .write (o ++ [render v]) f k
  | .plain s, v => .plain (v :: s)

/-- `HyeongStack::pop_one`: a read stack falls back to decoding from its
stream when its buffer is empty (errors and exhaustion give `NaN`); a
write stack always yields `NaN`; a plain stack yields `NaN` when empty. -/
def HStack.pop_one : HStack → HyeongRational × HStack
  | .read i s =>
    match s with
    | v :: rest => (v, .read i rest)
    | [] =>
      match i with
      | v :: rest => (v, .read rest [])
      | [] => (.NaN, .read [] [])
  | .write o f k => (.NaN, .write o f k)
  | .plain s =>
    match s with
    | v :: rest => (v, .plain rest)
    | [] => (.NaN, .plain [])

/-- `HyeongStack::flush`: only a write stack talks to its backing stream;
the Boolean result is `true` for `Ok(())`. -/
def HStack.flush : HStack → Bool × HStack
  | .read i s => (true, .read i s)
  | .write o f k => (k, .write o (f + 1) k)
  | .plain s => (true, .plain s)

/-- Push `count` copies of `v` (the `for _ in 0..count` loop of
`StackManager::duplicate`). -/
def HStack.pushN : HStack → Nat → HyeongRational → HStack
  | st, 0, _ => st
  | st, n + 1, v => (st.push_one v).pushN n v

/-- The `for _ in 0..count { sum += stack_from.pop_one(); }` loop of
`StackManager::add` (and, with `mul`, of `StackManager::mul`). -/
def HStack.popFold (op : HyeongRational → HyeongRational → HyeongRational) :
    HStack → Nat → HyeongRational → HyeongRational × HStack
  | st, 0, acc => (acc, st)
  | st, n + 1, acc =>
    let (v, st') := st.pop_one
    st'.popFold op n (op acc v)

/-- The `for _ in 0..count { temp.push(f(stack_from.pop_one())); }` loop
of `StackManager::neg`/`recip`: the returned list holds the transformed
values in pop order. -/
def HStack.popMap (f : HyeongRational → HyeongRational) :
    HStack → Nat → List HyeongRational × HStack
  | st, 0 => ([], st)
  | st, n + 1 =>
    let (v, st') := st.pop_one
    let (vs, st'') := st'.popMap f n
    (f v :: vs, st'')

/-- The `while let Some(r) = temp.next_back() { stack_from.push_one(r); }`
loop: pushes the list back starting from its last element, restoring the
original stack order. -/
def HStack.pushRev : HStack → List HyeongRational → HStack
  | st, [] => st
  | st, v :: vs => (st.pushRev vs).push_one v

/-- `StackManager` (src/stack.rs).  The `BTreeMap<usize, StackWrapper>` is
a partial map `Nat → Option HStack`; `get_mut(..).unwrap()` is total in
every reachable state because a stack is created before it is selected or
targeted, and is modelled by reading an absent id as an empty plain stack. -/
structure StackManager where
  «stacks» : Nat → Option HStack
  selected : Nat
  exit_code : Option Int

/-- Read a stack slot (`get_mut(&id).unwrap()` under the reachability
invariant). -/
def StackManager.getStack (m : StackManager) (id : Nat) : HStack :=
  (m.stacks id).getD (.plain [])

/-- Write a stack slot back. -/
def StackManager.setStack (m : StackManager) (id : Nat) (s : HStack) : StackManager :=
  { m with «stacks» := fun j => if j = id then some s else m.stacks j }

/-- `StackManager::make_stack`: create an empty plain stack at `id` unless
one exists. -/
def StackManager.make_stack (m : StackManager) (id : Nat) : StackManager :=
  if (m.stacks id).isSome then m else m.setStack id (.plain [])

/-- `StackManager::select`: make the stack exist, then select it. -/
def StackManager.select (m : StackManager) (id : Nat) : StackManager :=
  { m.make_stack id with selected := id }

/-- `StackManager::from_stacks`: bind ids 0/1/2 to the three streams,
then select 3 (creating it). -/
def StackManager.from_stacks (i o e : HStack) : StackManager :=
  let base : StackManager :=
    { «stacks» := fun id => if id = 0 then some i else if id = 1 then some o
        else if id = 2 then some e else none,
      selected := 0,
      exit_code := none }
  base.select 3

/-- `StackManager::check_exit`: selecting stream 1 resp. 2 at an
arithmetic operation decides exit code 0 resp. 1. -/
def StackManager.check_exit (m : StackManager) : Bool × StackManager :=
  if m.selected = 1 then (true, { m with exit_code := some 0 })
  else if m.selected = 2 then (true, { m with exit_code := some 1 })
  else (false, m)

/-- `StackManager::push`: push `hangul * dots` as an exact integer onto
the selected stack; no exit-trigger check. -/
def StackManager.push (m : StackManager) (hangul dots : Nat) : StackManager :=
  m.setStack m.selected
    ((m.getStack m.selected).push_one (.Rational ((hangul * dots : Nat) : ℚ)))

/-- `StackManager::add`. -/
def StackManager.add (m : StackManager) (count tgt : Nat) : StackManager :=
  match m.check_exit with
  | (true, m') => m'
  | (false, m') =>
    let (sum, st') :=
      (m'.getStack m'.selected).popFold HyeongRational.add count (HyeongRational.from_u32 0)
    let m1 := m'.setStack m'.selected st'
    let m2 := m1.make_stack tgt
    m2.setStack tgt ((m2.getStack tgt).push_one sum)

/-- `StackManager::mul`. -/
def StackManager.mul (m : StackManager) (count tgt : Nat) : StackManager :=
  match m.check_exit with
  | (true, m') => m'
  | (false, m') =>
    let (sum, st') :=
      (m'.getStack m'.selected).popFold HyeongRational.mul count (HyeongRational.from_u32 1)
    let m1 := m'.setStack m'.selected st'
    let m2 := m1.make_stack tgt
    m2.setStack tgt ((m2.getStack tgt).push_one sum)

/-- `StackManager::neg`: pop `count` values, negate each, push them back in
original order, push the sum of the negated values onto `to`. -/
def StackManager.neg (m : StackManager) (count tgt : Nat) : StackManager :=
  match m.check_exit with
  | (true, m') => m'
  | (false, m') =>
    let (temp, st') := (m'.getStack m'.selected).popMap HyeongRational.neg count
    let sum := temp.foldl HyeongRational.add (HyeongRational.from_u32 0)
    let m1 := m'.setStack m'.selected (st'.pushRev temp)
    let m2 := m1.make_stack tgt
    m2.setStack tgt ((m2.getStack tgt).push_one sum)

/-- `StackManager::recip`. -/
def StackManager.recip (m : StackManager) (count tgt : Nat) : StackManager :=
  match m.check_exit with
  | (true, m') => m'
  | (false, m') =>
    let (temp, st') := (m'.getStack m'.selected).popMap HyeongRational.recip count
    let sum := temp.foldl HyeongRational.mul (HyeongRational.from_u32 1)
    let m1 := m'.setStack m'.selected (st'.pushRev temp)
    let m2 := m1.make_stack tgt
    m2.setStack tgt ((m2.getStack tgt).push_one sum)

/-- `StackManager::duplicate` (src/stack.rs lines 293-306).  Note the
source guards this operation with `if self.check_exit() { return; }`
exactly like the four arithmetic operations. -/
def StackManager.duplicate (m : StackManager) (count into : Nat) : StackManager :=
  match m.check_exit with
  | (true, m') => m'
  | (false, m') =>
    let (v, st') := (m'.getStack m'.selected).pop_one
    let m1 := m'.setStack m'.selected (st'.push_one v)
    let m2 := m1.select into
    m2.setStack m2.selected ((m2.getStack m2.selected).pushN count v)

/-- `StackManager::flush`: flush stream 1; only if that succeeded, flush
stream 2 (the `?` operator short-circuits). -/
def StackManager.flush (m : StackManager) : Bool × StackManager :=
  if ((m.getStack 1).flush).1 then
    ((((m.setStack 1 ((m.getStack 1).flush).2).getStack 2).flush).1,
      (m.setStack 1 ((m.getStack 1).flush).2).setStack 2
        (((m.setStack 1 ((m.getStack 1).flush).2).getStack 2).flush).2)
  else (false, m.setStack 1 ((m.getStack 1).flush).2)

/-! ## Claims C1, C2 and C9 -/

/-- The body of `duplicate` below the exit check, written from the spec
sentence for the refinement in C1: pop one value from the selected stack,
push it back unchanged, change the selection to the target, and push
`count` copies of the peeked value onto the new selected stack. -/
def duplicateSpecBody (m : StackManager) (count target : Nat) : StackManager :=
  let (v, st) := (m.getStack m.selected).pop_one
  let peeked := m.setStack m.selected (st.push_one v)
  let switched := peeked.select target
  switched.setStack switched.selected
    ((switched.getStack switched.selected).pushN count v)

/-- An empty read stream stack. -/
def emptyIn : HStack := .read [] []

/-- A fresh write stream stack whose backing stream flushes successfully. -/
def emptyOut : HStack := .write [] 0 true

/-- The manager a run starts from, over empty streams. -/
def M0 : StackManager := StackManager.from_stacks emptyIn emptyOut emptyOut

/-- `M0` with stream 1 selected (reachable, e.g. via `duplicate(_, 1)`). -/
def Msel1 : StackManager := { M0 with selected := 1 }

/-- `M0` with stream 2 selected. -/
def Msel2 : StackManager := { M0 with selected := 2 }

/-- C1 counterexample: the claim says invoking `duplicate` never sets an
exit code, but `StackManager::duplicate` begins with
`if self.check_exit() { return; }`: with stream 1 selected it records
exit code 0 (and performs none of the duplicate steps). -/
theorem claim1_counterexample :
    Msel1.exit_code = none ∧
    (Msel1.duplicate 1 3).exit_code = some 0 ∧
    (Msel2.duplicate 1 3).exit_code = some 1 := by
  refine ⟨rfl, rfl, rfl⟩

/-- C1 amended: `push` never performs the exit-trigger check, so it never
sets an exit code, in every state; `duplicate`, however, performs the same
check as the arithmetic operations: with stream 1 (resp. 2) selected it
records exit code 0 (resp. 1) and does nothing else; in every other state
it leaves the exit code unchanged and performs exactly the pop / push-back /
select-target / push-count-copies sequence, with no exit-trigger firing. -/
theorem claim1_push_duplicate (m : StackManager) (count into hangul dots : Nat) :
    (m.push hangul dots).exit_code = m.exit_code ∧
    (m.selected = 1 → m.duplicate count into = { m with exit_code := some 0 }) ∧
    (m.selected = 2 → m.duplicate count into = { m with exit_code := some 1 }) ∧
    (m.selected ≠ 1 → m.selected ≠ 2 →
      m.duplicate count into = duplicateSpecBody m count into ∧
      (m.duplicate count into).exit_code = m.exit_code) := by
  refine ⟨rfl, fun h1 => ?_, fun h2 => ?_, fun h1 h2 => ?_⟩
  · simp only [StackManager.duplicate, StackManager.check_exit, if_pos h1]
  · simp only [StackManager.duplicate, StackManager.check_exit, if_neg (h2 ▸ by omega : ¬m.selected = 1)]
    rw [if_pos h2]
  · have hck : m.check_exit = (false, m) := by
      simp only [StackManager.check_exit, if_neg h1, if_neg h2]
    constructor
    · simp only [StackManager.duplicate, hck, duplicateSpecBody]
    · simp only [StackManager.duplicate, hck]
      simp only [StackManager.setStack, StackManager.select, StackManager.make_stack,
        StackManager.setStack]
      split <;> (try split) <;> rfl

/-- C1 witness: the amended theorem at concrete states — `Msel1`/`Msel2`
for the exit branches and the initial manager `M0` (selected stack 3) for
the plain branch. -/
theorem claim1_witness :
    (Msel1.duplicate 2 5 = { Msel1 with exit_code := some 0 }) ∧
    (Msel2.duplicate 2 5 = { Msel2 with exit_code := some 1 }) ∧
    (M0.duplicate 2 5 = duplicateSpecBody M0 2 5) ∧
    (M0.duplicate 2 5).exit_code = M0.exit_code := by
  refine ⟨(claim1_push_duplicate Msel1 2 5 0 0).2.1 rfl,
    (claim1_push_duplicate Msel2 2 5 0 0).2.2.1 rfl,
    ((claim1_push_duplicate M0 2 5 0 0).2.2.2 (by decide) (by decide)).1,
    ((claim1_push_duplicate M0 2 5 0 0).2.2.2 (by decide) (by decide)).2⟩

/-- C2: with stream 1 selected, each of `add`/`mul`/`neg`/`recip` only
records exit code 0 and leaves every stack untouched; with stream 2
selected it records exit code 1; the check reads the selected id only —
the target id `to` is universally quantified and never examined. -/
theorem claim2_exit_trigger (m : StackManager) (count tgt : Nat) :
    (m.selected = 1 →
      m.add count tgt = { m with exit_code := some 0 } ∧
      m.mul count tgt = { m with exit_code := some 0 } ∧
      m.neg count tgt = { m with exit_code := some 0 } ∧
      m.recip count tgt = { m with exit_code := some 0 }) ∧
    (m.selected = 2 →
      m.add count tgt = { m with exit_code := some 1 } ∧
      m.mul count tgt = { m with exit_code := some 1 } ∧
      m.neg count tgt = { m with exit_code := some 1 } ∧
      m.recip count tgt = { m with exit_code := some 1 }) := by
  constructor
  · intro h1
    refine ⟨?_, ?_, ?_, ?_⟩ <;>
      simp only [StackManager.add, StackManager.mul, StackManager.neg, StackManager.recip,
        StackManager.check_exit, if_pos h1]
  · intro h2
    have hne : ¬m.selected = 1 := by omega
    refine ⟨?_, ?_, ?_, ?_⟩ <;>
      · simp only [StackManager.add, StackManager.mul, StackManager.neg, StackManager.recip,
          StackManager.check_exit, if_neg hne]
        rw [if_pos h2]

/-- C2 witness: the theorem evaluated at the concrete managers with
stream 1 resp. stream 2 selected. -/
theorem claim2_witness :
    Msel1.add 1 0 = { Msel1 with exit_code := some 0 } ∧
    Msel2.recip 1 0 = { Msel2 with exit_code := some 1 } := by
  exact ⟨((claim2_exit_trigger Msel1 1 0).1 rfl).1,
    ((claim2_exit_trigger Msel2 1 0).2 rfl).2.2.2⟩

/-- C9: immediately after `from_stacks`, the selected stack is id 3, a
freshly created empty plain value stack; ids 0/1/2 still hold the three
supplied stream stacks, and no other id exists yet. -/
theorem claim9_initial_selection (i o e : HStack) :
    (StackManager.from_stacks i o e).selected = 3 ∧
    (StackManager.from_stacks i o e).stacks 3 = some (.plain []) ∧
    (StackManager.from_stacks i o e).stacks 0 = some i ∧
    (StackManager.from_stacks i o e).stacks 1 = some o ∧
    (StackManager.from_stacks i o e).stacks 2 = some e ∧
    (StackManager.from_stacks i o e).exit_code = none ∧
    ∀ id : Nat, 3 < id → (StackManager.from_stacks i o e).stacks id = none := by
  refine ⟨rfl, rfl, rfl, rfl, rfl, rfl, fun id hid => ?_⟩
  have h3 : id ≠ 3 := by omega
  have h0 : id ≠ 0 := by omega
  have h1 : id ≠ 1 := by omega
  have h2 : id ≠ 2 := by omega
  simp [StackManager.from_stacks, StackManager.select, StackManager.make_stack,
    StackManager.setStack, h0, h1, h2, h3]

/-- C9 witness: the invariant theorem evaluated at the concrete empty
streams, showing a plain id above 3 does not exist yet. -/
theorem claim9_witness :
    (StackManager.from_stacks emptyIn emptyOut emptyOut).stacks 7 = none :=
  (claim9_initial_selection emptyIn emptyOut emptyOut).2.2.2.2.2.2 7 (by omega)

/-! ## Parser (src/parser.rs and src/structure.rs) -/

/-- `OperationType` (src/structure.rs). -/
inductive OperationType where
  | Push
  | Add
  | Multiply
  | Negate
  | Reciprocate
  | Duplicate
deriving DecidableEq

/-- `Operation` (src/structure.rs). -/
structure Operation where
  op_type : OperationType
  hangul_count : Nat
deriving DecidableEq

/-- `HangulStartType` (src/parser.rs): the nine trigger syllables. -/
inductive HangulStartType where
  | Hyeo
  | Ha
  | Heu
  | Hyeong
  | Hang
  | Hat
  | Heut
  | Heup
  | Heuk
deriving DecidableEq

/-- `HangulStartType::from_char`.  A character is a trigger exactly when
this is `some`; the source's preliminary
`"형항핫흣흡흑혀하흐".contains(c)` test recognises the same nine
characters. -/
def HangulStartType.from_char : Char → Option HangulStartType
  | '혀' => some .Hyeo
  | '하' => some .Ha
  | '흐' => some .Heu
  | '형' => some .Hyeong
  | '항' => some .Hang
  | '핫' => some .Hat
  | '흣' => some .Heut
  | '흡' => some .Heup
  | '흑' => some .Heuk
  | _ => none

/-- `HangulStartType::is_self_ending`. -/
def HangulStartType.is_self_ending : HangulStartType → Bool
  | .Hyeo => false
  | .Ha => false
  | .Heu => false
  | _ => true

/-- `impl Into<char> for HangulStartType`. -/
def HangulStartType.intoChar : HangulStartType → Char
  | .Hyeo => '혀'
  | .Ha => '하'
  | .Heu => '흐'
  | .Hyeong => '형'
  | .Hang => '항'
  | .Hat => '핫'
  | .Heut => '흣'
  | .Heup => '흡'
  | .Heuk => '흑'

/-- `Operation::from_chars` (src/structure.rs): with a closing syllable the
operation is decided by it and carries the scanned count; a self-ending
syllable decides the operation itself with count 1.  The `unreachable!`
arms can only be reached with arguments the scanner never produces (the
fallback value is immaterial). -/
def Operation.from_chars (start : Char) (stop : Option Char) (count : Nat) : Operation :=
  match stop with
  | some c =>
    { op_type :=
        match c with
        | '엉' => .Push
        | '앙' => .Add
        | '앗' => .Multiply
        | '읏' => .Negate
        | '읍' => .Reciprocate
        | '윽' => .Duplicate
        | _ => .Push
      hangul_count := count }
  | none =>
    { op_type :=
        match start with
        | '형' => .Push
        | '항' => .Add
        | '핫' => .Multiply
        | '흣' => .Negate
        | '흡' => .Reciprocate
        | '흑' => .Duplicate
        | _ => .Push
      hangul_count := 1 }

/-- `Token` (src/parser.rs). -/
inductive Token where
  | Dot
  | ThreeDots
  | Heart (id : Nat)
  | ReturnHeart
  | ExclamationMark
  | QuestionMark
deriving DecidableEq

/-- `HEART_MARKS`: the fixed table of 11 heart glyphs, each carrying its
index as id. -/
def HEART_MARKS : List Char :=
  [Char.ofNat 0x2665, Char.ofNat 0x2764, Char.ofNat 0x1f495, Char.ofNat 0x1f496,
   Char.ofNat 0x1f497, Char.ofNat 0x1f498, Char.ofNat 0x1f499, Char.ofNat 0x1f49a,
   Char.ofNat 0x1f49b, Char.ofNat 0x1f49c, Char.ofNat 0x1f49d]

/-- `HEART_MARKS.iter().position(|&i| i == c)`. -/
def heartPosition (c : Char) : List Char → Nat → Option Nat
  | [], _ => none
  | x :: xs, k => if x = c then some k else heartPosition c xs (k + 1)

/-- `Token::from_char`: `.`, the three-dots family, the return heart
`U+2661`, `!`, `?`, or one of the 11 heart glyphs. -/
def Token.from_char (c : Char) : Option Token :=
  if c = '.' then some .Dot
  else if c = Char.ofNat 0x2026 ∨ c = Char.ofNat 0x22ee ∨ c = Char.ofNat 0x22ef then
    some .ThreeDots
  else if c = Char.ofNat 0x2661 then some .ReturnHeart
  else if c = '!' then some .ExclamationMark
  else if c = '?' then some .QuestionMark
  else (heartPosition c HEART_MARKS 0).map .Heart

/-- The end-syllable test inside `Parser::find_matching_end`. -/
def matchesEnd (start : HangulStartType) (c : Char) : Bool :=
  match start with
  | .Hyeo => c = '엉'
  | .Ha => c = '앙' ∨ c = '앗'
  | .Heu => c = '읏' ∨ c = '읍' ∨ c = '윽'
  | _ => false

/-- `Parser::find_matching_end`: scan forward counting every character in
the Hangul-syllable block `U+AC00 .. U+D7A3` (the count is bumped before the
end test, so the closing syllable itself counts); stop at the first valid
closing syllable, returning the count, the closing character and the
remaining characters (the source commits `self.code = temp_iter`). -/
def find_matching_end (start : HangulStartType) :
    List Char → Nat → Option (Nat × Char × List Char)
  | [], _ => none
  | c :: cs, cnt =>
    let cnt' := if 0xAC00 ≤ c.toNat ∧ c.toNat ≤ 0xD7A3 then cnt + 1 else cnt
    if matchesEnd start c then some (cnt', c, cs)
    else find_matching_end start cs cnt'

/-- The fused scan loop of `Parser::parse_hangul`: skim characters,
caching every recognised token, until a trigger syllable; a self-ending
trigger yields its operation; an open trigger yields its operation at the
first matching closing syllable, and otherwise (closing never found:
`find_matching_end` returned `None`, `self.code` was not advanced past the
open syllable) the outer `loop` continues scanning after the open
syllable.  Returns the operation (if any), the remaining characters and
the token cache. -/
def parseHangulAux : List Char → List Token → Option Operation × List Char × List Token
  | [], acc => (none, [], acc)
  | c :: cs, acc =>
    match HangulStartType.from_char c with
    | some start =>
      if start.is_self_ending then
        (some (Operation.from_chars start.intoChar none 1), cs, acc)
      else
        match find_matching_end start cs 0 with
        | some (cnt, ec, rest) =>
          (some (Operation.from_chars start.intoChar (some ec) (cnt + 1)), rest, acc)
        | none => parseHangulAux cs acc
    | none =>
      match Token.from_char c with
      | some t => parseHangulAux cs (acc ++ [t])
      | none => parseHangulAux cs acc

/-- `Parser::parse_hangul`: clears the token cache, then scans. -/
def parse_hangul (code : List Char) : Option Operation × List Char × List Token :=
  parseHangulAux code []

/-- `Parser` (src/parser.rs): the character cursor, the cached next
operation and the token cache. -/
structure Parser where
  code : List Char
  operation_cache : Option Operation
  token_cache : List Token
deriving DecidableEq

/-- `Parser::from_str`: run `parse_hangul` once to prime the operation
cache. -/
def Parser.fromStr (code : List Char) : Parser :=
  let r := parse_hangul code
  { code := r.2.1, operation_cache := r.1, token_cache := r.2.2 }

/-- `HeartTree` (src/structure.rs). -/
inductive HeartTree where
  | Heart (id : Nat)
  | Return
  | LessThan (l r : HeartTree)
  | Equals (l r : HeartTree)
  | Nil
deriving DecidableEq

/-- `current_heart.or(Some(leaf))`: the pending slot is filled only when
empty (first-wins). -/
def orFill (cur : Option HeartTree) (leaf : HeartTree) : Option HeartTree :=
  match cur with
  | some h => some h
  | none => some leaf

/-- The `for _ in 0..op_count` drain: pop `rhs`, pop `lhs`, push
`Equals(lhs, rhs)`, once per outstanding request.  The output stack is a
list whose head is the top.  The missing-node arm is unreachable: every
request is preceded by at least one push. -/
def equalsFold : List HeartTree → Nat → List HeartTree
  | tr, 0 => tr
  | r :: l :: rest, n + 1 => equalsFold (.Equals l r :: rest) n
  | tr, _ + 1 => tr

/-- The `while tree.len() > 1` loop: pop `rhs`, pop `lhs`, push
`LessThan(lhs, rhs)` until one node remains; `[]` answers the final
`tree.pop().unwrap_or(Nil)`.  The loop is the left fold below: each step
wraps the accumulated node as the left child under the next node down the
stack. -/
def lessThanFold : List HeartTree → HeartTree
  | [] => .Nil
  | t :: ts => ts.foldl (fun acc x => .LessThan x acc) t

/-- The token loop of `Iterator::next` (src/parser.rs lines 189-214):
state is the pending leaf slot, the output stack (head = top) and the
outstanding-equals counter. -/
def heartFold : List Token → Option HeartTree → List HeartTree → Nat →
    Option HeartTree × List HeartTree × Nat
  | [], cur, tr, cnt => (cur, tr, cnt)
  | t :: ts, cur, tr, cnt =>
    match t with
    | .Heart id => heartFold ts (orFill cur (.Heart id)) tr cnt
    | .ReturnHeart => heartFold ts (orFill cur .Return) tr cnt
    | .ExclamationMark => heartFold ts none ((cur.getD .Nil) :: tr) (cnt + 1)
    | .QuestionMark => heartFold ts none (equalsFold ((cur.getD .Nil) :: tr) cnt) 0
    | _ => heartFold ts cur tr cnt

/-- Whether a token belongs to the magnitude prefix (`Dot`/`ThreeDots`). -/
def Token.isDotLike : Token → Bool
  | .Dot => true
  | .ThreeDots => true
  | _ => false

/-- The dots computation of `Iterator::next`: the longest prefix of
dot/ellipsis tokens, summing 1 per dot and 3 per ellipsis glyph. -/
def dotsValue (cache : List Token) : Nat :=
  (cache.takeWhile Token.isDotLike).foldl
    (fun i t =>
      match t with
      | .Dot => i + 1
      | .ThreeDots => i + 3
      | _ => i) 0

/-- The hearts computation of `Iterator::next`: filter the dot tokens out,
run the token loop, push the final pending leaf, drain the remaining
equals requests, then fold the stack into nested `LessThan` nodes. -/
def buildHeartTree (cache : List Token) : HeartTree :=
  lessThanFold (equalsFold
    (((heartFold (cache.filter fun t => !t.isDotLike) none [] 0).1.getD .Nil) ::
      (heartFold (cache.filter fun t => !t.isDotLike) none [] 0).2.1)
    (heartFold (cache.filter fun t => !t.isDotLike) none [] 0).2.2)

/-- `Instruction` (src/structure.rs). -/
structure Instruction where
  op : Operation
  dots : Nat
  hearts : HeartTree
deriving DecidableEq

/-- `Iterator::next for Parser`: emit the cached operation (or end), scan
ahead for the next operation — refilling the token cache with the tokens
sitting after the current operation — and attach the magnitude and heart
tree computed from that refilled cache. -/
def Parser.next (p : Parser) : Option (Instruction × Parser) :=
  match p.operation_cache with
  | none => none
  | some op =>
    some
      ({ op := op,
         dots := dotsValue (parse_hangul p.code).2.2,
         hearts := buildHeartTree (parse_hangul p.code).2.2 },
       { code := (parse_hangul p.code).2.1,
         operation_cache := (parse_hangul p.code).1,
         token_cache := (parse_hangul p.code).2.2 })

/-! ## Claim C3: unclosed open syllables -/

/-- If no character of `cs` is a trigger syllable, the scan produces no
operation (the instruction stream ends; the text is consumed without
error). -/
lemma parseHangulAux_no_trigger (cs : List Char) :
    ∀ acc : List Token, (∀ x ∈ cs, HangulStartType.from_char x = none) →
      (parseHangulAux cs acc).1 = none := by
  induction cs with
  | nil => intro acc h; rfl
  | cons c cs ih =>
    intro acc h
    have hc := h c (List.mem_cons_self c cs)
    simp only [parseHangulAux, hc]
    cases htok : Token.from_char c with
    | none => exact ih acc fun x hx => h x (List.mem_cons_of_mem _ hx)
    | some t => exact ih (acc ++ [t]) fun x hx => h x (List.mem_cons_of_mem _ hx)

/-- C3 counterexample: `['혀', '형']` contains the open syllable `혀`
whose closing syllable `엉` never appears, yet the parser still yields an
instruction (`형` = Push, count 1) — the claim says parsing ends at the
unclosed syllable and nothing after it yields an instruction. -/
theorem claim3_counterexample :
    (Parser.fromStr ['혀', '형']).next =
      some ({ op := { op_type := .Push, hangul_count := 1 }, dots := 0, hearts := .Nil },
        { code := [], operation_cache := none, token_cache := [] }) := by
  decide

/-- C3 amended: an open syllable whose closing syllable never appears
yields no instruction *itself*, but parsing does not end there: the
scanner resumes immediately after the open syllable, and a later trigger
syllable can still produce an instruction; only when the remaining text
contains no trigger at all does the scan return no operation, silently
discarding that text. -/
theorem claim3_unclosed (c : Char) (st : HangulStartType) (cs : List Char) (acc : List Token)
    (h1 : HangulStartType.from_char c = some st)
    (h2 : st.is_self_ending = false)
    (h3 : find_matching_end st cs 0 = none) :
    parseHangulAux (c :: cs) acc = parseHangulAux cs acc ∧
    ((∀ x ∈ cs, HangulStartType.from_char x = none) →
      (parseHangulAux (c :: cs) acc).1 = none) := by
  have hstep : parseHangulAux (c :: cs) acc = parseHangulAux cs acc := by
    simp only [parseHangulAux, h1, h2, h3]
    simp
  exact ⟨hstep, fun hno => hstep ▸ parseHangulAux_no_trigger cs acc hno⟩

/-- C3 witness: the amended theorem at the open syllable `혀` followed by
a single dot: the scan skips the unclosed syllable and, the rest holding
no trigger, ends with no operation. -/
theorem claim3_witness :
    parseHangulAux ['혀', '.'] [] = parseHangulAux ['.'] [] ∧
    (parseHangulAux ['혀', '.'] []).1 = none := by
  have h := claim3_unclosed '혀' .Hyeo ['.'] [] (by decide) (by decide) (by decide)
  exact ⟨h.1, h.2 (by decide)⟩

/-! ## Claim C6: the two-phase heart-tree reduction

`heartTreeSpec` below is written from the wording of §4.3 steps 1-4 of the
design document; the claim is settled by proving it equal to the embedded
source computation `buildHeartTree`. -/

/-- The spec reduction state (§4.3 step 1): a pending-leaf slot, an output
stack of tree nodes (head = top) and a counter of outstanding equals
requests. -/
structure HeartState where
  pending : Option HeartTree
  out : List HeartTree
  outstanding : Nat

/-- Push the pending leaf (or `Nil` if empty) onto the output stack and
clear the pending slot. -/
def specPush (s : HeartState) : HeartState :=
  { pending := none, out := (s.pending.getD .Nil) :: s.out,
    outstanding := s.outstanding }

/-- Pop two nodes per outstanding equals request and push
`Equals(left = popped second, right = popped first)` for each. -/
def specDrain : List HeartTree → Nat → List HeartTree
  | ts, 0 => ts
  | r :: l :: rest, n + 1 => specDrain (.Equals l r :: rest) n
  | ts, _ + 1 => ts

/-- §4.3 step 2: one token of the run.  A heart or return token sets the
pending slot only if it is currently empty (first-wins); `!` pushes the
pending leaf and increments the outstanding counter; `?` pushes the
pending leaf, then immediately drains the outstanding requests, resetting
the counter; dot tokens are ignored. -/
def specStep (s : HeartState) : Token → HeartState
  | .Heart id => if s.pending.isNone then { s with pending := some (.Heart id) } else s
  | .ReturnHeart => if s.pending.isNone then { s with pending := some .Return } else s
  | .ExclamationMark =>
    let s' := specPush s
    { s' with outstanding := s'.outstanding + 1 }
  | .QuestionMark =>
    let s' := specPush s
    { s' with out := specDrain s'.out s'.outstanding, outstanding := 0 }
  | _ => s

/-- §4.3 step 4: while more than one node remains, pop the top as `right`,
the next as `left`, and push `LessThan(left, right)`; an empty stack gives
`Nil`. -/
def specLessFold : List HeartTree → HeartTree
  | [] => .Nil
  | t :: ts => ts.foldl (fun acc x => .LessThan x acc) t

/-- §4.3 steps 1-4 assembled: fold the non-dot tokens through the state
machine, push the final pending leaf, drain any still-outstanding equals
requests, then fold into nested less-thans. -/
def heartTreeSpec (run : List Token) : HeartTree :=
  specLessFold (specDrain
    (specPush ((run.filter (fun t => !t.isDotLike)).foldl specStep ⟨none, [], 0⟩)).out
    (specPush ((run.filter (fun t => !t.isDotLike)).foldl specStep ⟨none, [], 0⟩)).outstanding)

lemma specDrain_eq_equalsFold (n : Nat) :
    ∀ ts : List HeartTree, specDrain ts n = equalsFold ts n := by
  induction n with
  | zero =>
    intro ts
    match ts with
    | [] => rfl
    | [t] => rfl
    | r :: l :: rest => rfl
  | succ n ih =>
    intro ts
    match ts with
    | [] => rfl
    | [t] => rfl
    | r :: l :: rest =>
      simp only [specDrain, equalsFold]
      exact ih _

lemma specLessFold_eq_lessThanFold (ts : List HeartTree) :
    specLessFold ts = lessThanFold ts := by
  cases ts <;> rfl

/-- The source token loop agrees with the spec state machine. -/
lemma heartFold_spec (ts : List Token) :
    ∀ (cur : Option HeartTree) (tr : List HeartTree) (cnt : Nat),
      heartFold ts cur tr cnt =
        ((ts.foldl specStep ⟨cur, tr, cnt⟩).pending,
          (ts.foldl specStep ⟨cur, tr, cnt⟩).out,
          (ts.foldl specStep ⟨cur, tr, cnt⟩).outstanding) := by
  induction ts with
  | nil => intro cur tr cnt; rfl
  | cons t ts ih =>
    intro cur tr cnt
    cases t with
    | Heart id =>
      cases cur <;>
        simp only [heartFold, List.foldl_cons, specStep, orFill, Option.isNone] <;>
        exact ih _ _ _
    | ReturnHeart =>
      cases cur <;>
        simp only [heartFold, List.foldl_cons, specStep, orFill, Option.isNone] <;>
        exact ih _ _ _
    | ExclamationMark =>
      simp only [heartFold, List.foldl_cons, specStep, specPush]
      exact ih _ _ _
    | QuestionMark =>
      simp only [heartFold, List.foldl_cons, specStep, specPush,
        specDrain_eq_equalsFold]
      exact ih _ _ _
    | Dot =>
      simp only [heartFold, List.foldl_cons, specStep]
      exact ih _ _ _
    | ThreeDots =>
      simp only [heartFold, List.foldl_cons, specStep]
      exact ih _ _ _

/-- The source heart-tree computation agrees with the spec reduction. -/
lemma buildHeartTree_eq_spec (run : List Token) :
    buildHeartTree run = heartTreeSpec run := by
  unfold buildHeartTree heartTreeSpec
  rw [heartFold_spec]
  simp only [specPush, specDrain_eq_equalsFold, specLessFold_eq_lessThanFold]

/-- C6: every instruction's heart tree is the result of the two-phase
reduction of §4.3: the source computation equals the spec state machine on
every token run; the parser attaches exactly that tree for the
instruction's token run; a lone `?` performs zero equals-folds yet still
pushes a leaf (yielding `LessThan(Nil, Nil)` together with the final
push); a run without heart tokens yields `Nil`. -/
theorem claim6_heart_tree :
    (∀ run : List Token, buildHeartTree run = heartTreeSpec run) ∧
    (∀ (p : Parser) (i : Instruction) (q : Parser),
      p.next = some (i, q) → i.hearts = heartTreeSpec q.token_cache) ∧
    heartTreeSpec [.QuestionMark] = .LessThan .Nil .Nil ∧
    (∀ run : List Token,
      run.filter (fun t => !t.isDotLike) = [] → heartTreeSpec run = .Nil) := by
  refine ⟨buildHeartTree_eq_spec, ?_, by decide, ?_⟩
  · intro p i q h
    cases hc : p.operation_cache with
    | none => rw [Parser.next, hc] at h; exact Option.noConfusion h
    | some op =>
      rw [Parser.next, hc] at h
      simp only [Option.some.injEq, Prod.mk.injEq] at h
      obtain ⟨hi, hq⟩ := h
      subst hi
      subst hq
      exact buildHeartTree_eq_spec _
  · intro run hrun
    unfold heartTreeSpec
    rw [hrun]
    rfl

/-- C6 witness: the parser conjunct at the concrete program
`흐읏...!♡!` (whose instruction carries
`Equals(Nil, Equals(Return, Nil))`), and the empty-run conjunct at a
cache holding a single dot. -/
theorem claim6_witness :
    (((Parser.fromStr ['흐', '읏', '.', '.', '.', '!', '♡', '!']).next.map
        fun r => r.1.hearts) =
      ((Parser.fromStr ['흐', '읏', '.', '.', '.', '!', '♡', '!']).next.map
        fun r => heartTreeSpec r.2.token_cache)) ∧
    heartTreeSpec [Token.Dot] = HeartTree.Nil := by
  constructor
  · cases hn : (Parser.fromStr ['흐', '읏', '.', '.', '.', '!', '♡', '!']).next with
    | none => rfl
    | some r =>
      simp only [Option.map]
      rw [claim6_heart_tree.2.1 _ r.1 r.2 hn]
  · exact claim6_heart_tree.2.2.2 [Token.Dot] (by decide)

/-! ## Heart-tree evaluation (src/stack.rs) and the processor
(src/processor.rs) -/

/-- `HeartResult` (src/stack.rs). -/
inductive HeartResult where
  | Heart (id : Nat)
  | Return
  | Nil
deriving DecidableEq

/-- `StackManager::stack_less_than`: pop one value from the selected stack
and compare it (strictly) against the target as a rational. -/
def StackManager.stack_less_than (m : StackManager) (target : Nat) : Bool × StackManager :=
  ((((m.getStack m.selected).pop_one).1).hlt (HyeongRational.from_usize target),
    m.setStack m.selected ((m.getStack m.selected).pop_one).2)

/-- `StackManager::stack_equals`. -/
def StackManager.stack_equals (m : StackManager) (target : Nat) : Bool × StackManager :=
  ((((m.getStack m.selected).pop_one).1).heq (HyeongRational.from_usize target),
    m.setStack m.selected ((m.getStack m.selected).pop_one).2)

/-- `StackManager::process_hearts`: leaves return their tag without stack
mutation; a `LessThan`/`Equals` node pops one value, compares it against
the target, and recurses into the matching child. -/
def StackManager.process_hearts :
    StackManager → HeartTree → Nat → HeartResult × StackManager
  | m, .Heart id, _ => (.Heart id, m)
  | m, .Return, _ => (.Return, m)
  | m, .Nil, _ => (.Nil, m)
  | m, .LessThan l r, target =>
    if (m.stack_less_than target).1 then
      (m.stack_less_than target).2.process_hearts l target
    else
      (m.stack_less_than target).2.process_hearts r target
  | m, .Equals l r, target =>
    if (m.stack_equals target).1 then
      (m.stack_equals target).2.process_hearts l target
    else
      (m.stack_equals target).2.process_hearts r target

/-- `Processor` (src/processor.rs): the inner instruction source, the
materialized instruction cache, the program counter, the stack manager,
the single remembered jump origin, and the label memo table
(`HashMap<(usize, usize), usize>` as a partial map). -/
structure Processor where
  parser : Parser
  instructions : List Instruction
  position : Nat
  «stacks» : StackManager
  last_jump : Option Nat
  labels : Nat × Nat → Option Nat

/-- `Processor::with_stack_manager`. -/
def Processor.with_stack_manager (pr : Parser) (m : StackManager) : Processor :=
  { parser := pr, instructions := [], position := 0, «stacks» := m,
    last_jump := none, labels := fun _ => none }

/-- `labels.entry(label).or_insert(position)` when the key is absent. -/
def labelInsert (f : Nat × Nat → Option Nat) (k : Nat × Nat) (v : Nat) :
    Nat × Nat → Option Nat :=
  fun x => if x = k then some v else f x

/-- The materialization step at the top of `Processor::advance`: when the
counter has run past the cache, pull one instruction from the parser
(appending it) or, with the parser exhausted, wrap the counter to 0. -/
def Processor.materialize (p : Processor) : Processor :=
  if p.instructions.length ≤ p.position then
    match p.parser.next with
    | none => { p with position := 0 }
    | some ip => { p with instructions := p.instructions ++ [ip.1], parser := ip.2 }
  else p

/-- The operation dispatch of `Processor::advance`: each operation is fed
the instruction's repeat count and magnitude. -/
def StackManager.execOp (m : StackManager) (i : Instruction) : StackManager :=
  match i.op.op_type with
  | .Push => m.push i.op.hangul_count i.dots
  | .Add => m.add i.op.hangul_count i.dots
  | .Multiply => m.mul i.op.hangul_count i.dots
  | .Negate => m.neg i.op.hangul_count i.dots
  | .Reciprocate => m.recip i.op.hangul_count i.dots
  | .Duplicate => m.duplicate i.op.hangul_count i.dots

/-- The control-flow tail of `Processor::advance` (src/processor.rs lines
76-97): given the current position, label table, `last_jump` slot and
heart parameter, produce the next position, table and slot from the
heart-tree result. -/
def Processor.heartJump (pos : Nat) (labels : Nat × Nat → Option Nat)
    (lj : Option Nat) (param : Nat) :
    HeartResult → Nat × (Nat × Nat → Option Nat) × Option Nat
  | .Heart id =>
    match labels (param, id) with
    | some next => if next ≠ pos then (next, labels, some pos) else (pos + 1, labels, lj)
    | none => (pos + 1, labelInsert labels (param, id) pos, lj)
  | .Return =>
    match lj with
    | some next => (next, labels, lj)
    | none => (pos + 1, labels, lj)
  | .Nil => (pos + 1, labels, lj)

/-- `Processor::advance`: materialize, index the cache (`none` models the
out-of-bounds panic of `&self.instructions[self.position]` on an empty
cache), dispatch the operation, evaluate the heart tree against
`hangul_count * dots`, update the control state, and report the stack
manager's exit code. -/
def Processor.advance (p : Processor) : Option (Option Int × Processor) :=
  match (p.materialize).instructions[(p.materialize).position]? with
  | none => none
  | some instr =>
    some
      ((((p.materialize).stacks.execOp instr).process_hearts instr.hearts
          (instr.op.hangul_count * instr.dots)).2.exit_code,
       { p.materialize with
          «stacks» := (((p.materialize).stacks.execOp instr).process_hearts instr.hearts
            (instr.op.hangul_count * instr.dots)).2,
          position := (Processor.heartJump (p.materialize).position (p.materialize).labels
            (p.materialize).last_jump (instr.op.hangul_count * instr.dots)
            (((p.materialize).stacks.execOp instr).process_hearts instr.hearts
              (instr.op.hangul_count * instr.dots)).1).1,
          labels := (Processor.heartJump (p.materialize).position (p.materialize).labels
            (p.materialize).last_jump (instr.op.hangul_count * instr.dots)
            (((p.materialize).stacks.execOp instr).process_hearts instr.hearts
              (instr.op.hangul_count * instr.dots)).1).2.1,
          last_jump := (Processor.heartJump (p.materialize).position (p.materialize).labels
            (p.materialize).last_jump (instr.op.hangul_count * instr.dots)
            (((p.materialize).stacks.execOp instr).process_hearts instr.hearts
              (instr.op.hangul_count * instr.dots)).1).2.2 })

/-- `Processor::run`, with explicit fuel: loop `advance` until it reports
a decided exit code, then return that code together with the result of
flushing the output streams; `none` stands for a run that has not
terminated within the fuel (or hit the empty-cache panic).  The returned
processor is the post-run state (its write stacks record the flush). -/
def Processor.runFuel : Nat → Processor → Option ((Int × Bool) × Processor)
  | 0, _ => none
  | fuel + 1, p =>
    match p.advance with
    | none => none
    | some (some ec, p') =>
      some ((ec, (p'.stacks.flush).1), { p' with «stacks» := (p'.stacks.flush).2 })
    | some (none, p') => Processor.runFuel fuel p'

/-- `impl Drop for Processor` (src/processor.rs lines 28-32): when the
processor is dropped — which happens at the end of `run` itself — the
stack manager is flushed once more and the result is `unwrap`ped: a
failure aborts (`none`). -/
def Processor.dropFlush (p : Processor) : Option Processor :=
  if (p.stacks.flush).1 then some { p with «stacks» := (p.stacks.flush).2 }
  else none

/-! ## Claim C4: control flow after an instruction -/

/-- The one-instruction program `혀어엉..♥`: Push with repeat count 3,
magnitude (dots) 2, and the heart leaf `♥` (id 0). -/
def C4src : List Char := ['혀', '어', '엉', '.', '.', '♥']

/-- The processor for that program over empty streams. -/
def C4proc : Processor := Processor.with_stack_manager (Parser.fromStr C4src) M0

/-- The processor state after its first `advance`. -/
def C4step : Processor := ((C4proc.advance).getD (none, C4proc)).2

/-- C4 counterexample: the claim says the pair `(magnitude, id)` is looked
up in the label memo table — `magnitude` being the dots-derived weight of
the instruction.  On `혀어엉..♥` (repeat count 3, magnitude 2, heart
id 0) the first `advance` binds no label at `(2, 0)`: the code keys the
table by `hangul_times_dots() = repeat count × magnitude`, binding
`(6, 0)` to the current counter instead. -/
theorem claim4_counterexample :
    Option.map (fun r => r.1) (Parser.fromStr C4src).next =
      some { op := { op_type := OperationType.Push, hangul_count := 3 }, dots := 2,
             hearts := HeartTree.Heart 0 } ∧
    C4step.labels (2, 0) = none ∧
    C4step.labels (6, 0) = some 0 := by
  refine ⟨rfl, rfl, rfl⟩

/-- C4 amended: the program counter moves according to the heart-tree
result, with the label memo table keyed not by `(magnitude, id)` but by
`(param, id)`, where `param` is the heart comparison parameter
`hangul_count * dots` (`Instruction::hangul_times_dots`) of the
instruction — the same value the heart tree is evaluated against.  On
`Heart(id)` the pair `(param, id)` is looked up in the label memo table:
if absent it is bound to the current counter and the counter advances by
one (the first occurrence is its own jump target); if bound to a
different position the current position is saved into `last_jump` and the
counter jumps there; if bound to the current position the counter
advances by one.  On `Return` with a saved origin the counter moves there
and the origin is kept (repeated Returns reuse it); without one it
advances by one.  On `Nil` it advances by one.  The final conjunct ties
this to `Processor::advance`. -/
theorem claim4_control_flow :
    (∀ (pos : Nat) (labels : Nat × Nat → Option Nat) (lj : Option Nat) (param id : Nat),
      (labels (param, id) = none →
        Processor.heartJump pos labels lj param (.Heart id) =
          (pos + 1, labelInsert labels (param, id) pos, lj)) ∧
      (∀ t, labels (param, id) = some t → t ≠ pos →
        Processor.heartJump pos labels lj param (.Heart id) = (t, labels, some pos)) ∧
      (labels (param, id) = some pos →
        Processor.heartJump pos labels lj param (.Heart id) = (pos + 1, labels, lj)) ∧
      (∀ j, lj = some j →
        Processor.heartJump pos labels lj param .Return = (j, labels, some j)) ∧
      (lj = none →
        Processor.heartJump pos labels lj param .Return = (pos + 1, labels, none)) ∧
      Processor.heartJump pos labels lj param .Nil = (pos + 1, labels, lj)) ∧
    (∀ (p : Processor) (instr : Instruction) (e : Option Int) (q : Processor),
      (p.materialize).instructions[(p.materialize).position]? = some instr →
      p.advance = some (e, q) →
      (q.position, q.labels, q.last_jump) =
        Processor.heartJump (p.materialize).position (p.materialize).labels
          (p.materialize).last_jump (instr.op.hangul_count * instr.dots)
          (((p.materialize).stacks.execOp instr).process_hearts instr.hearts
            (instr.op.hangul_count * instr.dots)).1 ∧
      q.stacks = (((p.materialize).stacks.execOp instr).process_hearts instr.hearts
        (instr.op.hangul_count * instr.dots)).2 ∧
      q.instructions = (p.materialize).instructions ∧
      e = q.stacks.exit_code) := by
  constructor
  · intro pos labels lj param id
    refine ⟨fun h => ?_, fun t ht hne => ?_, fun h => ?_, fun j hj => ?_, fun h => ?_, rfl⟩
    · simp only [Processor.heartJump, h]
    · simp only [Processor.heartJump, ht, if_pos hne]
    · simp only [Processor.heartJump, h]
      simp
    · simp only [Processor.heartJump, hj]
    · simp only [Processor.heartJump, h]
  · intro p instr e q hinstr hadv
    unfold Processor.advance at hadv
    rw [hinstr] at hadv
    simp only [Option.some.injEq, Prod.mk.injEq] at hadv
    obtain ⟨he, hq⟩ := hadv
    subst hq
    exact ⟨rfl, rfl, rfl, he.symm⟩

/-- A one-instruction program (`형` = Push, repeat 1, no dots). -/
def P4 : Processor := Processor.with_stack_manager (Parser.fromStr ['형']) M0

/-- Its single instruction. -/
def I4 : Instruction := { op := { op_type := .Push, hangul_count := 1 }, dots := 0, hearts := .Nil }

/-- C4 witness: the theorem evaluated on concrete inputs — a fresh label
(bound and advanced), a jump to an earlier binding, a `Return` with and
without a saved origin, and the `advance` link on the one-instruction
program `형` (whose `Nil` heart advances the counter to 1). -/
theorem claim4_witness :
    Processor.heartJump 0 (fun _ => none) none 6 (.Heart 2) =
      (1, labelInsert (fun _ => none) (6, 2) 0, none) ∧
    Processor.heartJump 4 (labelInsert (fun _ => none) (6, 2) 0) none 6 (.Heart 2) =
      (0, labelInsert (fun _ => none) (6, 2) 0, some 4) ∧
    Processor.heartJump 7 (fun _ => none) (some 3) 6 .Return =
      (3, fun _ => none, some 3) ∧
    Processor.heartJump 7 (fun _ => none) none 6 .Nil = (8, fun _ => none, none) ∧
    Option.map (fun r => r.2.position) P4.advance = some 1 := by
  refine ⟨(claim4_control_flow.1 0 _ none 6 2).1 rfl,
    (claim4_control_flow.1 4 _ none 6 2).2.1 0 rfl (by omega),
    (claim4_control_flow.1 7 _ (some 3) 6 2).2.2.2.1 3 rfl,
    (claim4_control_flow.1 7 _ none 6 2).2.2.2.2.2,
    ?_⟩
  cases hadv : P4.advance with
  | none =>
    exact absurd hadv (by rw [show P4.advance = some ((P4.advance).getD (none, P4)) from rfl]; simp)
  | some r =>
    have h := claim4_control_flow.2 P4 I4 r.1 r.2 (by rfl) hadv
    have hpos : r.2.position =
        (Processor.heartJump P4.materialize.position P4.materialize.labels
          P4.materialize.last_jump (I4.op.hangul_count * I4.dots)
          ((P4.materialize.stacks.execOp I4).process_hearts I4.hearts
            (I4.op.hangul_count * I4.dots)).1).1 := congrArg Prod.fst h.1
    simp only [Option.map, hadv]
    rw [hpos]
    rfl

/-! ## Claim C10: totality of the step function -/

/-- The reachability invariant of the processor loop: the counter never
runs more than one step past the cache, the cache is nonempty once the
parser is exhausted, and every recorded label and the saved jump origin
point into the cache. -/
def Processor.Inv (p : Processor) : Prop :=
  p.position ≤ p.instructions.length ∧
  (0 < p.instructions.length ∨ p.parser.operation_cache.isSome = true) ∧
  (∀ k v, p.labels k = some v → v < p.instructions.length) ∧
  (∀ j, p.last_jump = some j → j < p.instructions.length)

lemma Parser.next_eq_none (p : Parser) : p.next = none ↔ p.operation_cache = none := by
  cases hc : p.operation_cache <;> simp [Parser.next, hc]

lemma materialize_preserves (p : Processor) :
    (p.materialize).labels = p.labels ∧ (p.materialize).last_jump = p.last_jump ∧
    p.instructions.length ≤ (p.materialize).instructions.length := by
  unfold Processor.materialize
  split
  · split <;> simp
  · simp

lemma materialize_inbounds (p : Processor) (h : p.Inv) :
    (p.materialize).position < (p.materialize).instructions.length := by
  obtain ⟨h1, h2, h3, h4⟩ := h
  unfold Processor.materialize
  split
  · rename_i hle
    cases hn : p.parser.next with
    | none =>
      have hc : p.parser.operation_cache = none := (Parser.next_eq_none _).mp hn
      have hlen : 0 < p.instructions.length := by
        cases h2 with
        | inl hh => exact hh
        | inr hh => rw [hc] at hh; exact absurd hh (by simp)
      exact hlen
    | some ip =>
      show p.position < (p.instructions ++ [ip.1]).length
      rw [List.length_append]
      simp only [List.length_cons, List.length_nil]
      omega
  · rename_i hlt
    exact Nat.lt_of_not_le hlt

lemma heartJump_bounds (pos len : Nat) (labels : Nat × Nat → Option Nat) (lj : Option Nat)
    (param : Nat) (res : HeartResult)
    (hpos : pos < len)
    (hlab : ∀ k v, labels k = some v → v < len)
    (hlj : ∀ j, lj = some j → j < len) :
    (Processor.heartJump pos labels lj param res).1 ≤ len ∧
    (∀ k v, (Processor.heartJump pos labels lj param res).2.1 k = some v → v < len) ∧
    (∀ j, (Processor.heartJump pos labels lj param res).2.2 = some j → j < len) := by
  cases res with
  | Heart id =>
    cases hl : labels (param, id) with
    | none =>
      simp only [Processor.heartJump, hl]
      refine ⟨by omega, ?_, hlj⟩
      intro k v hk
      by_cases hke : k = (param, id)
      · subst hke
        simp [labelInsert] at hk
        omega
      · rw [labelInsert, if_neg hke] at hk
        exact hlab k v hk
    | some t =>
      by_cases ht : t = pos
      · subst ht
        simp only [Processor.heartJump, hl]
        rw [if_neg (by simp)]
        exact ⟨by omega, hlab, hlj⟩
      · simp only [Processor.heartJump, hl, if_pos ht]
        refine ⟨Nat.le_of_lt (hlab _ _ hl), hlab, ?_⟩
        intro j hj
        cases hj
        exact hpos
  | Return =>
    cases hj : lj with
    | none =>
      simp only [Processor.heartJump, hj]
      exact ⟨by omega, hlab, by simp⟩
    | some j =>
      simp only [Processor.heartJump, hj]
      exact ⟨Nat.le_of_lt (hlj j hj), hlab, fun x hx => by cases hx; exact hlj j hj⟩
  | Nil =>
    simp only [Processor.heartJump]
    exact ⟨by omega, hlab, hlj⟩

/-- C10: under the reachability invariant — which holds for every freshly
constructed processor whose parser yields at least one instruction —
`Processor::advance` never hits the unguarded index (the cache index is
always in bounds after materialization) and the invariant is preserved, so
every step of such a program is total; a source yielding no instruction at
all, however, makes the very first `advance` index position 0 of an empty
cache (the modelled panic `none`). -/
theorem claim10_advance_total :
    (∀ p : Processor, p.Inv →
      (p.advance).isSome = true ∧
      ∀ (e : Option Int) (q : Processor), p.advance = some (e, q) → q.Inv) ∧
    (∀ (pr : Parser) (m : StackManager), pr.operation_cache.isSome = true →
      (Processor.with_stack_manager pr m).Inv) ∧
    (Processor.with_stack_manager (Parser.fromStr []) M0).advance = none := by
  refine ⟨?_, ?_, rfl⟩
  · intro p hInv
    have hpos := materialize_inbounds p hInv
    obtain ⟨hlabeq, hljeq, hlen⟩ := materialize_preserves p
    obtain ⟨h1, h2, h3, h4⟩ := hInv
    have hlab : ∀ k v, (p.materialize).labels k = some v →
        v < (p.materialize).instructions.length := by
      intro k v hk
      rw [hlabeq] at hk
      exact Nat.lt_of_lt_of_le (h3 k v hk) hlen
    have hlj : ∀ j, (p.materialize).last_jump = some j →
        j < (p.materialize).instructions.length := by
      intro j hj
      rw [hljeq] at hj
      exact Nat.lt_of_lt_of_le (h4 j hj) hlen
    obtain ⟨instr, hsome⟩ : ∃ instr,
        (p.materialize).instructions[(p.materialize).position]? = some instr :=
      ⟨_, List.getElem?_eq_getElem hpos⟩
    constructor
    · unfold Processor.advance
      rw [hsome]
      rfl
    · intro e q hq
      unfold Processor.advance at hq
      rw [hsome] at hq
      simp only [Option.some.injEq, Prod.mk.injEq] at hq
      obtain ⟨he, hqq⟩ := hq
      subst hqq
      obtain ⟨hb1, hb2, hb3⟩ := heartJump_bounds (p.materialize).position
        (p.materialize).instructions.length (p.materialize).labels
        (p.materialize).last_jump _ _ hpos hlab hlj
      exact ⟨hb1, Or.inl (Nat.lt_of_le_of_lt (Nat.zero_le _) hpos), hb2, hb3⟩
  · intro pr m hc
    refine ⟨Nat.le_refl 0, Or.inr hc, ?_, ?_⟩
    · intro k v hk
      exact Option.noConfusion hk
    · intro j hj
      exact Option.noConfusion hj

/-- C10 witness: the invariant theorem applied to the freshly built
one-instruction program `형` — its first step succeeds and preserves the
invariant. -/
theorem claim10_witness :
    (P4.advance).isSome = true :=
  (claim10_advance_total.1 P4 (claim10_advance_total.2.1 _ M0 rfl)).1

/-! ## Claim C5: run, exit code and the flushes -/

lemma advance_exit (p : Processor) (r : Option Int × Processor)
    (h : p.advance = some r) : r.1 = r.2.stacks.exit_code := by
  unfold Processor.advance at h
  cases hm : (p.materialize).instructions[(p.materialize).position]? with
  | none => rw [hm] at h; exact Option.noConfusion h
  | some instr =>
    rw [hm] at h
    simp only [Option.some.injEq] at h
    rw [← h]

lemma flush_preserves_exit (m : StackManager) :
    ((m.flush).2).exit_code = m.exit_code := by
  unfold StackManager.flush
  split <;> rfl

/-- C5 amended: when a run terminates because the stack manager decided an
exit code, `run` returns exactly that code, paired with the outcome of one
flush of the final state — the flush alters no exit code, and a failing
outcome is returned, not dropped; however, the processor's destructor
(`Drop`) then performs a *second* flush when `run`'s `self` is dropped,
aborting (`unwrap`) if that one fails — so over the whole termination the
output streams are flushed twice, not exactly once. -/
theorem claim5_run_flush :
    (∀ (fuel : Nat) (p : Processor) (ec : Int) (ok : Bool) (q : Processor),
      Processor.runFuel fuel p = some ((ec, ok), q) →
      q.stacks.exit_code = some ec ∧
      ∃ r : Processor, r.stacks.exit_code = some ec ∧ r.stacks.flush = (ok, q.stacks)) ∧
    (∀ m : StackManager, ((m.flush).2).exit_code = m.exit_code) ∧
    (∀ p : Processor, (p.dropFlush = none ↔ (p.stacks.flush).1 = false)) := by
  refine ⟨?_, flush_preserves_exit, ?_⟩
  · intro fuel
    induction fuel with
    | zero => intro p ec ok q h; exact Option.noConfusion h
    | succ fuel ih =>
      intro p ec ok q h
      unfold Processor.runFuel at h
      cases hadv : p.advance with
      | none => rw [hadv] at h; exact Option.noConfusion h
      | some r =>
        rw [hadv] at h
        rcases r with ⟨oe, p'⟩
        have hre := advance_exit p (oe, p') hadv
        cases oe with
        | none => exact ih p' ec ok q h
        | some ec' =>
          simp only [Option.some.injEq, Prod.mk.injEq] at h
          obtain ⟨⟨hec, hok⟩, hq⟩ := h
          subst hec
          subst hq
          refine ⟨?_, p', ?_, ?_⟩
          · have := flush_preserves_exit p'.stacks
            simpa [this] using hre.symm
          · exact hre.symm
          · rw [← hok]
  · intro p
    unfold Processor.dropFlush
    split
    · rename_i hb
      simp [hb]
    · rename_i hb
      simp at hb
      simp [hb]

/-- The two-instruction program `흑.항`: `흑` with one dot duplicates into
stack 1 (selecting it), then `항` fires the exit trigger with code 0. -/
def C5src : List Char := ['흑', '.', '항']

/-- The processor for that program over empty streams. -/
def C5proc : Processor := Processor.with_stack_manager (Parser.fromStr C5src) M0

/-- The processor state `run` hands back for that program (exit code 0,
flush `Ok`). -/
def C5post : Processor := ((Processor.runFuel 2 C5proc).getD ((0, true), C5proc)).2

/-- The flush counter of the stream behind stack 1. -/
def stdoutFlushes (p : Processor) : Nat :=
  match p.stacks.stacks 1 with
  | some (.write _ f _) => f
  | _ => 0

/-- C5 counterexample: the claim says the output streams are flushed
exactly once per terminating run, but after `run` (one flush) the
processor is dropped and `Drop` flushes again: the stream behind stack 1
has then received two flush calls, and already the run itself left it at
one — the destructor's is a second, retrying flush. -/
theorem claim5_counterexample :
    Option.map stdoutFlushes
        ((Processor.runFuel 2 C5proc).bind (fun r => Processor.dropFlush r.2)) =
      some 2 ∧
    Option.map stdoutFlushes (Option.map Prod.snd (Processor.runFuel 2 C5proc)) =
      some 1 ∧
    (2 : Nat) ≠ 1 := by
  refine ⟨rfl, rfl, by omega⟩

/-- C5 witness: the amended theorem on the concrete program `흑.항`,
whose run terminates with exit code 0 and a successful flush. -/
theorem claim5_witness :
    C5post.stacks.exit_code = some 0 ∧
    ∃ r : Processor, r.stacks.exit_code = some 0 ∧ r.stacks.flush = (true, C5post.stacks) :=
  claim5_run_flush.1 2 C5proc 0 true C5post (by rfl)

end Hyeong
